import Mathlib

set_option maxHeartbeats 4000000
set_option maxRecDepth 10000

/-!
Verification development for the LR(1)/LALR(1) parser-generator repository.
The Python sources are embedded shallowly: dictionaries become association
lists, Python sets become lists used up to membership (with explicit order
parameters where the source iterates over a `set` whose order the language
does not fix), `while` loops become fuel-indexed recursion, and exceptions
become `Except`.
-/



/-- A one-character string holding the ASCII apostrophe, used to build the
error and conflict messages of the source verbatim. -/
def apos : String := String.mk [Char.ofNat 39]

instance {α β : Type} [DecidableEq α] [DecidableEq β] : DecidableEq (Except α β)
  | .error a, .error b =>
    if h : a = b then .isTrue (by rw [h]) else .isFalse (by intro c; cases c; exact h rfl)
  | .error _, .ok _ => .isFalse (by intro c; cases c)
  | .ok _, .error _ => .isFalse (by intro c; cases c)
  | .ok a, .ok b =>
    if h : a = b then .isTrue (by rw [h]) else .isFalse (by intro c; cases c; exact h rfl)

/-- Lookup in an association list by decidable equality on the key
(mirrors Python `dict.get` / `d[k]`). -/
def alookup {α β : Type} [DecidableEq α] (k : α) : List (α × β) → Option β
  | [] => none
  | (k', v) :: t => if k' = k then some v else alookup k t

/-- Dictionary assignment `d[k] = v`: replace the first binding of `k` in
place, or append a new binding (Python dicts keep insertion order). -/
def dinsert {α β : Type} [DecidableEq α] (l : List (α × β)) (k : α) (v : β) : List (α × β) :=
  match l with
  | [] => [(k, v)]
  | (k', v') :: t => if k' = k then (k, v) :: t else (k', v') :: dinsert t k v

/-- Python `set.add`: append the element unless already present. -/
def sinsert {α : Type} [DecidableEq α] (s : List α) (x : α) : List α :=
  if x ∈ s then s else s ++ [x]

/-- Python `set.remove` (for a present element): drop every copy. -/
def sremove {α : Type} [DecidableEq α] (s : List α) (x : α) : List α :=
  s.filter (· ≠ x)

/-- Split a character list at every occurrence of one character, keeping
empty pieces: Python `str.split(c)`. -/
def splitCharAux (c : Char) : List Char → List Char → List (List Char)
  | acc, [] => [acc.reverse]
  | acc, x :: rest =>
    if x = c then acc.reverse :: splitCharAux c [] rest
    else splitCharAux c (x :: acc) rest

/-- Python `str.split(c)` on the character list of a string. -/
def splitChar (c : Char) (cs : List Char) : List (List Char) :=
  splitCharAux c [] cs

/-- Split a character list at every (non-overlapping, leftmost) occurrence
of the two-character arrow `->`: Python `line.split("->")`. -/
def splitArrowAux : List Char → List Char → List (List Char)
  | acc, [] => [acc.reverse]
  | acc, '-' :: '>' :: rest => acc.reverse :: splitArrowAux [] rest
  | acc, x :: rest => splitArrowAux (x :: acc) rest

/-- Python `line.split("->")`. -/
def splitArrow (cs : List Char) : List (List Char) :=
  splitArrowAux [] cs

/-- Rejoin the pieces after the first arrow, restoring the separators:
together with taking the head this models Python `line.split("->", 1)`. -/
def joinArrow : List (List Char) → List Char
  | [] => []
  | [p] => p
  | p :: rest => p ++ '-' :: '>' :: joinArrow rest

/-- Python `str.split()` (no argument): split on whitespace runs, dropping
empty pieces. -/
def splitWsAux : List Char → List Char → List (List Char)
  | acc, [] => if acc.isEmpty then [] else [acc.reverse]
  | acc, x :: rest =>
    if x.isWhitespace then
      if acc.isEmpty then splitWsAux [] rest
      else acc.reverse :: splitWsAux [] rest
    else splitWsAux (x :: acc) rest

/-- Python `str.split()` returning strings. -/
def splitWs (cs : List Char) : List String :=
  (splitWsAux [] cs).map String.mk

/-- Python `str.strip()`: remove leading and trailing whitespace. -/
def trimStr (s : String) : String :=
  String.mk (((s.data.dropWhile (·.isWhitespace)).reverse.dropWhile (·.isWhitespace)).reverse)

/-- Python `line.startswith("#")`. -/
def startsHash (l : String) : Bool :=
  match l.data with
  | '#' :: _ => true
  | _ => false

/-- A FIRST-set map: symbol to its (set of) first symbols. -/
abbrev FirstMap := List (String × List String)

namespace LR

/-- `Grammar.epsilon` of `src/LR/grammar.py`. -/
def epsilon : String := "ε"

/-- The mutable state of `Grammar._parse_grammar` (`src/LR/grammar.py`,
lines 31-73) before augmentation: productions, the two symbol sets, and the
not-yet-set start symbol. -/
structure PG where
  productions : List (String × List String)
  non_terminals : List String
  terminals : List String
  start_symbol : Option String
deriving DecidableEq, Repr, Inhabited

def PG.init : PG := ⟨[], [], [], none⟩

/-- Body of the per-symbol loop of `_parse_grammar` (lines 71-73): add a
right-hand-side symbol to the terminal set unless it is epsilon or a known
nonterminal. -/
def addRhsSymbol (st : PG) (symbol : String) : PG :=
  if symbol ≠ epsilon ∧ symbol ∉ st.non_terminals then
    { st with terminals := sinsert st.terminals symbol }
  else st

/-- Body of the per-alternative loop of `_parse_grammar` (lines 58-73): an
empty alternative becomes the one-symbol right-hand side `(ε)`, otherwise
the alternative is whitespace-split and its symbols classified. -/
def addAlternative (lhs : String) (st : PG) (alt : String) : PG :=
  if alt = "" then
    { st with productions := st.productions ++ [(lhs, [epsilon])] }
  else
    let symbols := splitWs alt.data
    let st := { st with productions := st.productions ++ [(lhs, symbols)] }
    symbols.foldl addRhsSymbol st

/-- The line-numbered arrow error of `_parse_grammar` (line 38). -/
def arrowErr (idx : Nat) (line : String) : String :=
  "Line " ++ toString (idx + 1) ++ ": Missing production arrow (->): " ++ line

/-- The line-numbered empty-lhs error of `_parse_grammar` (line 44). -/
def emptyLhsErr (idx : Nat) (line : String) : String :=
  "Line " ++ toString (idx + 1) ++ ": Empty left-hand side: " ++ line

/-- One iteration of the line loop of `_parse_grammar` (lines 36-73). -/
def processLine (st : PG) (idx : Nat) (line : String) : Except String PG :=
  match splitArrow line.data with
  | [_] => .error (arrowErr idx line)
  | [] => .error (arrowErr idx line)
  | l :: rest =>
    let lhs := trimStr (String.mk l)
    let rhsStr := String.mk (joinArrow rest)
    if lhs = "" then .error (emptyLhsErr idx line)
    else
      let st := { st with
        non_terminals := sinsert st.non_terminals lhs,
        terminals := if lhs ∈ st.terminals then sremove st.terminals lhs else st.terminals,
        start_symbol := match st.start_symbol with | none => some lhs | some s => some s }
      let alternatives := ((splitChar '|' rhsStr.data).map (fun a => trimStr (String.mk a)))
      .ok (alternatives.foldl (addAlternative lhs) st)

/-- The enumerated line loop of `_parse_grammar`. -/
def processLines (st : PG) (idx : Nat) : List String → Except String PG
  | [] => .ok st
  | l :: rest =>
    match processLine st idx l with
    | .error e => .error e
    | .ok st' => processLines st' (idx + 1) rest

/-- Line preparation of `_parse_grammar` (lines 33-34): strip, drop blank
lines and `#` comments. -/
def stripLines (input : String) : List String :=
  (((splitChar '\n' (trimStr input).data).map (fun l => trimStr (String.mk l))).filter
    (fun l => !(l == "") && !(startsHash l)))

/-- The `while new_start in self.non_terminals: new_start += "'"` loop of
`_augment_grammar` (lines 85-86), with explicit fuel; the Python loop
terminates because candidate names strictly grow. -/
def freshStart (nts : List String) : Nat → String → String
  | 0, c => c
  | fuel + 1, c => if c ∈ nts then freshStart nts fuel (c ++ apos) else c

/-- A finished `Grammar` of `src/LR/grammar.py` after augmentation. -/
structure Grammar where
  productions : List (String × List String)
  non_terminals : List String
  terminals : List String
  start_symbol : String
deriving DecidableEq, Repr, Inhabited

/-- `Grammar._augment_grammar` (`src/LR/grammar.py`, lines 75-91): prepend a
production from a fresh start symbol (fresh with respect to the
nonterminals only) to the old start symbol. -/
def augment_grammar (st : PG) : Except String Grammar :=
  match st.start_symbol with
  | none => .error "Cannot augment grammar: no start symbol defined"
  | some s =>
    let ns := freshStart st.non_terminals (st.non_terminals.length + 1) (s ++ apos)
    .ok ⟨(ns, [s]) :: st.productions, sinsert st.non_terminals ns, st.terminals, ns⟩

/-- `Grammar.__init__` (`src/LR/grammar.py`): parse the text, then augment. -/
def parseGrammar (input : String) : Except String Grammar :=
  match processLines PG.init 0 (stripLines input) with
  | .error e => .error e
  | .ok st => augment_grammar st

/-- The guarded element addition of `compute_first_sets`
(`src/LR/first_follow.py`, lines 50-53 and 35-37 and 61-64): add `sym` to
`first[lhs]` and raise the change flag if it was absent. -/
def cfsAdd (acc : FirstMap × Bool) (lhs sym : String) : FirstMap × Bool :=
  let cur := (alookup lhs acc.1).getD []
  if sym ∈ cur then acc else (dinsert acc.1 lhs (cur ++ [sym]), true)

/-- The inner symbol scan of Case 2 of `compute_first_sets`
(`src/LR/first_follow.py`, lines 44-58): walk the right-hand side, copying
non-epsilon elements of each FIRST set into `first[lhs]`, stopping at the
first symbol whose FIRST set lacks epsilon; seeds unseen symbols with
`first[symbol] = {symbol}` on the way.  Returns the map, the change flag,
and whether every symbol derived epsilon. -/
def cfsScan (lhs : String) : List String → FirstMap × Bool → FirstMap × Bool × Bool
  | [], (fm, ch) => (fm, ch, true)
  | symbol :: rest, (fm, ch) =>
    let fm := if (alookup symbol fm).isSome then fm else dinsert fm symbol [symbol]
    let fsym := (alookup symbol fm).getD []
    let (fm, ch) := (fsym.filter (· ≠ epsilon)).foldl (fun acc t => cfsAdd acc lhs t) (fm, ch)
    if epsilon ∈ fsym then cfsScan lhs rest (fm, ch)
    else (fm, ch, false)

/-- The per-production body of `compute_first_sets`
(`src/LR/first_follow.py`, lines 32-64).  The source indexes `rhs[0]`,
which is always defined because the parser never produces an empty
right-hand side; the empty case is a no-op here. -/
def cfsProd (acc : FirstMap × Bool) (prod : String × List String) : FirstMap × Bool :=
  match prod.2 with
  | [] => acc
  | r0 :: _ =>
    if r0 = epsilon then cfsAdd acc prod.1 epsilon
    else
      let (fm, ch, allEps) := cfsScan prod.1 prod.2 acc
      if allEps then cfsAdd (fm, ch) prod.1 epsilon else (fm, ch)

/-- One pass of the `while True` loop of `compute_first_sets`. -/
def cfsPass (g : Grammar) (fm : FirstMap) : FirstMap × Bool :=
  g.productions.foldl cfsProd (fm, false)

/-- The `while True: ... if not changes: break` loop with fuel. -/
def cfsLoop (g : Grammar) : Nat → FirstMap → FirstMap
  | 0, fm => fm
  | fuel + 1, fm =>
    let (fm', ch) := cfsPass g fm
    if ch then cfsLoop g fuel fm' else fm'

/-- `compute_first_sets` (`src/LR/first_follow.py`, lines 8-70): the global
iterate-to-fixpoint FIRST computation.  Initialisation follows lines 19-26:
empty sets for nonterminals, singletons for terminals and epsilon. -/
def compute_first_sets (g : Grammar) (fuel : Nat) : FirstMap :=
  let fm : FirstMap := g.non_terminals.map (fun nt => (nt, []))
  let fm := g.terminals.foldl (fun fm t => dinsert fm t [t]) fm
  let fm := dinsert fm epsilon [epsilon]
  cfsLoop g fuel fm

/-- The three action forms placed in the LR ACTION table:
`('shift', s)`, `('reduce', n)`, `('accept', None)`. -/
inductive PyAction where
  | shift (n : Nat)
  | reduce (n : Nat)
  | accept
deriving DecidableEq, Repr

/-- A stack entry of `Grammar.test_input` (`src/LR/grammar.py`): the Python
stack holds state numbers, symbol strings, and — after a failed GOTO
lookup — the value `None`, modelled as `state none`. -/
inductive TEntry where
  | state (n : Option Nat)
  | symbol (s : String)
deriving DecidableEq, Repr

/-- Python `str(...)` of a stack entry (`None` prints as `"None"`). -/
def tentryStr : TEntry → String
  | .state none => "None"
  | .state (some n) => toString n
  | .symbol s => s

/-- The no-action rejection message of `test_input` (line 254). -/
def noActionMsg (stateE : TEntry) (symbol : String) : String :=
  "No action defined for state " ++ tentryStr stateE ++ " on symbol " ++ apos ++ symbol ++ apos

/-- The `while True` loop of `Grammar.test_input` (`src/LR/grammar.py`,
lines 228-280), stack top first, with fuel.  The diagnostic `steps` list
and the `verbose` printing are omitted: they do not affect control flow or
the returned pair.  On a reduce, the GOTO entry is fetched with `.get`
(line 270) and its result — possibly `None` — is pushed unconditionally. -/
def test_input_loop (g : Grammar) (action_table : List ((Nat × String) × PyAction))
    (goto_table : List ((Nat × String) × Nat)) :
    Nat → List TEntry → List String → Nat → Bool × Option String
  | 0, _, _, _ => (false, some "Unknown error")
  | fuel + 1, stack, tokens, idx =>
    let stateE := stack.headD (.state none)
    let symbol := tokens.getD idx "$"
    let action := match stateE with
      | .state (some n) => alookup (n, symbol) action_table
      | _ => none
    match action with
    | none => (false, some (noActionMsg stateE symbol))
    | some (.shift n) =>
      test_input_loop g action_table goto_table fuel
        (.state (some n) :: .symbol symbol :: stack) tokens (idx + 1)
    | some (.reduce p) =>
      let (lhs, rhs) := g.productions.getD p ("", [])
      let stack := stack.drop (2 * rhs.length)
      let goto_state := match stack.headD (.state none) with
        | .state (some n) => alookup (n, lhs) goto_table
        | _ => none
      test_input_loop g action_table goto_table fuel
        (.state goto_state :: .symbol lhs :: stack) tokens idx
    | some .accept => (true, none)

/-- `Grammar.test_input` (`src/LR/grammar.py`, lines 205-280): tokenize,
append the end marker, run the loop from state 0. -/
def test_input (g : Grammar) (action_table : List ((Nat × String) × PyAction))
    (goto_table : List ((Nat × String) × Nat)) (input : String) (fuel : Nat) :
    Bool × Option String :=
  test_input_loop g action_table goto_table fuel [.state (some 0)]
    (splitWs input.data ++ ["$"]) 0

/-- A stack entry of `Grammar.parse_input`: state numbers and symbols only
(`parse_input` reports a missing GOTO instead of pushing `None`). -/
inductive PEntry where
  | state (n : Nat)
  | symbol (s : String)
deriving DecidableEq, Repr

/-- The missing-goto internal error message of `parse_input` (line 183). -/
def noGotoMsg (state : Nat) (lhs : String) : String :=
  "No goto defined for state " ++ toString state ++ " on non-terminal " ++ lhs

/-- The no-action rejection message of `parse_input` (line 150). -/
def noActionMsgP (state : Nat) (symbol : String) : String :=
  "No action defined for state " ++ toString state ++ " on symbol " ++ apos ++ symbol ++ apos

/-- Result of one iteration of the `parse_input` loop. -/
inductive StepResult where
  | failed (msg : String)
  | accepted
  | next (stack : List PEntry) (idx : Nat)
deriving DecidableEq, Repr

/-- One iteration of the `while True` loop of `Grammar.parse_input`
(`src/LR/grammar.py`, lines 137-200), stack top first.  The diagnostic
`steps` recording is omitted (it has no effect on control flow).  A reduce
pops `2 * len(rhs)` entries (line 172), then consults GOTO and pushes the
left-hand side and the GOTO state. -/
def parse_input_step (g : Grammar) (action_table : List ((Nat × String) × PyAction))
    (goto_table : List ((Nat × String) × Nat)) (stack : List PEntry) (tokens : List String)
    (idx : Nat) : StepResult :=
  let state := match stack.headD (.state 0) with
    | .state n => n
    | .symbol _ => 0
  let symbol := tokens.getD idx "$"
  match alookup (state, symbol) action_table with
  | none => .failed (noActionMsgP state symbol)
  | some (.shift n) => .next (.state n :: .symbol symbol :: stack) (idx + 1)
  | some (.reduce p) =>
    let (lhs, rhs) := g.productions.getD p ("", [])
    let stack := stack.drop (2 * rhs.length)
    let state2 := match stack.headD (.state 0) with
      | .state n => n
      | .symbol _ => 0
    match alookup (state2, lhs) goto_table with
    | none => .failed (noGotoMsg state2 lhs)
    | some n => .next (.state n :: .symbol lhs :: stack) idx
  | some .accept => .accepted

/-- The fueled `while True` loop of `Grammar.parse_input`. -/
def parse_input_loop (g : Grammar) (action_table : List ((Nat × String) × PyAction))
    (goto_table : List ((Nat × String) × Nat)) :
    Nat → List PEntry → List String → Nat → Bool × Option String
  | 0, _, _, _ => (false, some "Unexpected end of parsing")
  | fuel + 1, stack, tokens, idx =>
    match parse_input_step g action_table goto_table stack tokens idx with
    | .failed msg => (false, some msg)
    | .accepted => (true, none)
    | .next stack' idx' => parse_input_loop g action_table goto_table fuel stack' tokens idx'

/-- `Grammar.parse_input` (`src/LR/grammar.py`, lines 113-203). -/
def parse_input (g : Grammar) (action_table : List ((Nat × String) × PyAction))
    (goto_table : List ((Nat × String) × Nat)) (input : String) (fuel : Nat) :
    Bool × Option String :=
  parse_input_loop g action_table goto_table fuel [.state 0] (splitWs input.data ++ ["$"]) 0

end LR

namespace LALR

/-- The rules dictionary of `src/LALR/grammar.py`: left-hand side to its
list of alternatives (each a list of symbols; an empty alternative is the
empty list, since Python `"".split()` is `[]`). -/
abbrev Rules := List (String × List (List String))

/-- The Python unpacking error raised by `lhs, rhs = line.split("->")`
when the line holds no arrow. -/
def unpackFewErr : String := "not enough values to unpack (expected 2, got 1)"

/-- The Python unpacking error raised when the line holds two or more
arrows. -/
def unpackManyErr : String := "too many values to unpack (expected 2)"

/-- One alternative `prod.strip().split()` of `parse_grammar_input`. -/
def parseAlt (p : List Char) : List String :=
  splitWs (trimStr (String.mk p)).data

/-- The line loop of `parse_grammar_input` (`src/LALR/grammar.py`, lines
13-20): strip, skip blanks, unpack around the single arrow (a bare
`ValueError` escapes when the line does not split into exactly two
pieces), split the right side on `|` into whitespace-split alternatives. -/
def parseLinesL (rules : Rules) : List String → Except String Rules
  | [] => .ok rules
  | line :: rest =>
    let line := trimStr line
    if line = "" then parseLinesL rules rest
    else
      match splitArrow line.data with
      | [l, r] =>
        let lhs := trimStr (String.mk l)
        let productions := (splitChar '|' (trimStr (String.mk r)).data).map parseAlt
        parseLinesL (dinsert rules lhs productions) rest
      | [_] => .error unpackFewErr
      | [] => .error unpackFewErr
      | _ => .error unpackManyErr

/-- `parse_grammar_input` (`src/LALR/grammar.py`, lines 10-21).  Note that
no line numbers or line text enter the failure value, and comment lines
are not skipped. -/
def parse_grammar_input (input : String) : Except String Rules :=
  parseLinesL [] ((splitChar '\n' (trimStr input).data).map String.mk)

/-- `Grammar.get_symbols` (`src/LALR/grammar.py`, lines 31-39): the
nonterminals are the rule keys; every other symbol of a right-hand side is
a terminal. -/
def get_symbols (rules : Rules) : List String × List String :=
  let non_terminals := rules.map (·.1)
  let terminals := rules.foldl (fun ts rhs =>
    rhs.2.foldl (fun ts prod =>
      prod.foldl (fun ts symbol =>
        if symbol ∉ non_terminals then sinsert ts symbol else ts) ts) ts) []
  (terminals, non_terminals)

/-- The guarded set union `first[symbol] |= vals` of the recursive
`first_of` (`src/LALR/grammar.py`, line 60): a `defaultdict`, so the entry
is created even when `vals` is empty. -/
def funion (fm : FirstMap) (k : String) (vals : List String) : FirstMap :=
  dinsert fm k (vals.foldl sinsert ((alookup k fm).getD []))

/-- `first[symbol].add(v)` on the defaultdict (line 64). -/
def faddEl (fm : FirstMap) (k : String) (v : String) : FirstMap :=
  dinsert fm k (sinsert ((alookup k fm).getD []) v)

/-- The defaultdict read `first[symbol]` creates an empty entry when
absent (line 66). -/
def ensureEntry (fm : FirstMap) (k : String) : FirstMap :=
  if (alookup k fm).isSome then fm else fm ++ [(k, [])]

/-- The inner `for sym in production: ... else: first[symbol].add('')`
loop of `first_of` (`src/LALR/grammar.py`, lines 58-64), parameterised by
the recursive call on the current memo map.  The `for`-`else` adds the
empty-string epsilon of this module when no `break` fired. -/
def scanSymsWith (rec : String → FirstMap → List String × FirstMap) (symbol : String) :
    List String → FirstMap → FirstMap
  | [], fm => faddEl fm symbol ""
  | s :: rest, fm =>
    let (f, fm) := rec s fm
    let fm := funion fm symbol (f.filter (· ≠ ""))
    if "" ∈ f then scanSymsWith rec symbol rest fm else fm

/-- The memoized recursive `first_of` of `Grammar.compute_first_sets`
(`src/LALR/grammar.py`, lines 45-66), with fuel standing for the (finite)
recursion depth.  Each recursive call receives `visited.copy()` with the
current symbol added; the memo map `first` is threaded through.  The
visited-cycle case returns the empty set, which is the source of the
under-approximation examined below. -/
def first_of (rules : Rules) (terminals : List String) :
    Nat → String → List String → FirstMap → List String × FirstMap
  | 0, _, _, fm => ([], fm)
  | fuel + 1, symbol, visited, fm =>
    if symbol ∈ terminals then ([symbol], fm)
    else if symbol ∈ visited then ([], fm)
    else
      let visited := sinsert visited symbol
      match alookup symbol fm with
      | some v => (v, fm)
      | none =>
        let prods := (alookup symbol rules).getD []
        let fm := prods.foldl (fun fm production =>
          scanSymsWith (fun s m => first_of rules terminals fuel s visited m)
            symbol production fm) fm
        let fm := ensureEntry fm symbol
        ((alookup symbol fm).getD [], fm)

/-- `Grammar.compute_first_sets` (`src/LALR/grammar.py`, lines 41-71): run
`first_of` over the nonterminals.  The source iterates the Python *set*
`self.non_terminals`, whose order the language does not fix; that order is
the explicit `ntOrder` list here. -/
def compute_first_sets (rules : Rules) (terminals : List String) (ntOrder : List String)
    (fuel : Nat) : FirstMap :=
  ntOrder.foldl (fun fm nt => (first_of rules terminals fuel nt [] fm).2) []

/-- A `Grammar` of `src/LALR/grammar.py` after `__init__`.  Note that,
unlike the LR module, this constructor performs no augmentation. -/
structure Grammar where
  rules : Rules
  start_symbol : String
  terminals : List String
  non_terminals : List String
  first_sets : FirstMap
deriving DecidableEq, Repr, Inhabited

/-- `Grammar.__init__` (`src/LALR/grammar.py`, lines 24-29): parse the
rules, take the first key as start symbol, classify symbols, compute FIRST
sets.  `ntOrder` fixes the unspecified iteration order of the nonterminal
set; an empty rule dictionary raises (Python: `IndexError`). -/
def mkGrammar (input : String) (ntOrder : List String → List String) (fuel : Nat) :
    Except String Grammar :=
  match parse_grammar_input input with
  | .error e => .error e
  | .ok rules =>
    match rules with
    | [] => .error "list index out of range"
    | (s0, _) :: _ =>
      let (ts, nts) := get_symbols rules
      .ok ⟨rules, s0, ts, nts, compute_first_sets rules ts (ntOrder nts) fuel⟩

/-- An LR(1) item tuple `(lhs, rhs, dot_position, lookahead)` of
`src/LALR/items.py`. -/
abbrev Item := String × List String × Nat × String

/-- `get_item_core` (`src/LALR/items.py`, lines 85-88). -/
def get_item_core (it : Item) : String × List String × Nat :=
  (it.1, it.2.1, it.2.2.1)

/-- A state core, the lookahead-stripped item set of `get_state_core`
(`src/LALR/items.py`, lines 90-92); a list compared up to membership. -/
abbrev Core := String × List String × Nat

/-- `get_state_core` (`src/LALR/items.py`, lines 90-92). -/
def get_state_core (state : List Item) : List Core :=
  state.map get_item_core

/-- Python `frozenset` equality for item sets: mutual containment. -/
def setEqv (a b : List Item) : Bool :=
  decide (∀ x ∈ a, x ∈ b) && decide (∀ x ∈ b, x ∈ a)

/-- Python `frozenset` equality for state cores. -/
def coreEqv (a b : List Core) : Bool :=
  decide (∀ x ∈ a, x ∈ b) && decide (∀ x ∈ b, x ∈ a)

/-- Lookup in the `core_to_state` dictionary, whose frozenset keys compare
by set equality. -/
def coreLookup : List (List Core × Nat) → List Core → Option Nat
  | [], _ => none
  | (k, v) :: t, c => if coreEqv k c then some v else coreLookup t c

/-- The inline `for beta_symbol in beta` FIRST-of-beta loop of `closure`
(`src/LALR/items.py`, lines 46-59): accumulates the set and the
`all_have_epsilon` flag; a terminal or an epsilon-free FIRST set stops the
scan. -/
def betaLoop (g : Grammar) : List String → List String × Bool → List String × Bool
  | [], acc => acc
  | b :: rest, (fob, allEps) =>
    if b ∈ g.terminals then (sinsert fob b, false)
    else
      let fbs := (alookup b g.first_sets).getD []
      if "" ∉ fbs then ((fbs.foldl sinsert fob), false)
      else betaLoop g rest ((fbs.filter (· ≠ "")).foldl sinsert fob, allEps)

/-- The lookahead computation of `closure` (`src/LALR/items.py`, lines
41-68): FIRST of `beta` followed by the item lookahead; an empty `beta`
contributes just the lookahead. -/
def newLookaheads (g : Grammar) (beta : List String) (lookahead : String) : List String :=
  if beta.isEmpty then [lookahead]
  else
    let (fob, allEps) := betaLoop g beta ([], true)
    if allEps then sinsert fob lookahead else fob

/-- The worklist loop of `closure` (`src/LALR/items.py`, lines 25-76) with
fuel.  Python pops from the list end (LIFO); the worklist here keeps its
top at the head, so freshly added items are pushed reversed.  Items added
to the closure keep insertion order; the result is a set, used up to
membership. -/
def closureLoop (g : Grammar) : Nat → List Item → List Item → List Item
  | 0, cs, _ => cs
  | _ + 1, cs, [] => cs
  | fuel + 1, cs, (_, rhs, dot, lookahead) :: wl =>
    match rhs.drop dot with
    | [] => closureLoop g fuel cs wl
    | symbol :: beta =>
      if symbol ∈ g.non_terminals then
        let las := newLookaheads g beta lookahead
        let prods := (alookup symbol g.rules).getD []
        let (cs, adds) := prods.foldl (fun acc prod =>
          las.foldl (fun (cs, adds) b =>
            let ni : Item := (symbol, prod, 0, b)
            if ni ∈ cs then (cs, adds) else (cs ++ [ni], adds ++ [ni])) acc) (cs, [])
        closureLoop g fuel cs (adds.reverse ++ wl)
      else closureLoop g fuel cs wl

/-- `closure` (`src/LALR/items.py`, lines 20-77). -/
def closure (g : Grammar) (fuel : Nat) (items : List Item) : List Item :=
  closureLoop g fuel items items.reverse

/-- `goto` (`src/LALR/items.py`, lines 79-83): advance the dot over
`symbol` and close, or return the empty set when no item qualifies. -/
def goto (g : Grammar) (fuel : Nat) (items : List Item) (symbol : String) : List Item :=
  let next := items.filterMap (fun it =>
    let (lhs, rhs, dot, lookahead) := it
    if (rhs.drop dot).headD "" = symbol ∧ dot < rhs.length then
      some (lhs, rhs, dot + 1, lookahead)
    else none)
  if next.isEmpty then [] else closure g fuel next

/-- The symbol set `{rhs[dot] | dot < len(rhs)}` of a state
(`src/LALR/items.py`, line 110), collected in item order and deduplicated;
the source iterates this Python set in an order the language does not fix,
which the explicit `ord` parameters below model. -/
def nextSymbols (state : List Item) : List String :=
  state.foldl (fun acc it =>
    match it.2.1.drop it.2.2.1 with
    | [] => acc
    | s :: _ => sinsert acc s) []

/-- One round of the `while added` loop of `generate_lr1_items`
(`src/LALR/items.py`, lines 107-116): iterate the snapshot of the state
list, append every nonempty goto set whose frozenset is not yet a known
state.  `ord` models the iteration order of the per-state symbol set. -/
def statesRound (g : Grammar) (fuel : Nat) (ord : List String → List String)
    (states : List (List Item)) : List (List Item) × Bool :=
  states.foldl (fun (acc, added) state =>
    (ord (nextSymbols state)).foldl (fun (acc, added) sym =>
      let gs := goto g fuel state sym
      if !gs.isEmpty && !(acc.any (fun s => setEqv s gs)) then (acc ++ [gs], true)
      else (acc, added)) (acc, added)) (states, false)

/-- The fueled `while added` loop of `generate_lr1_items`. -/
def genLoop (g : Grammar) (fuel : Nat) (ord : List String → List String) :
    Nat → List (List Item) → List (List Item)
  | 0, states => states
  | rounds + 1, states =>
    let (states', added) := statesRound g fuel ord states
    if added then genLoop g fuel ord rounds states' else states'

/-- `generate_lr1_items` (`src/LALR/items.py`, lines 94-118): the
canonical LR(1) state list, indices in discovery order.  The start item
takes the *first* alternative of the start symbol with end-marker
lookahead (line 98). -/
def generate_lr1_items (g : Grammar) (fuel : Nat) (ord : List String → List String) :
    List (List Item) :=
  let startProd := ((alookup g.start_symbol g.rules).getD []).headD []
  let start_closure := closure g fuel [(g.start_symbol, startProd, 0, "$")]
  genLoop g fuel ord fuel [start_closure]

/-- `core_to_lookaheads[core].add(la)` of the merge loop
(`src/LALR/items.py`, lines 137-154): exact-key association update. -/
def addLA : List (Core × List String) → Core → String → List (Core × List String)
  | [], c, la => [(c, [la])]
  | (k, las) :: t, c, la =>
    if k = c then (k, sinsert las la) :: t else (k, las) :: addLA t c la

/-- Fold a state's items into the core-to-lookaheads map. -/
def ctlaFold (m : List (Core × List String)) (items : List Item) : List (Core × List String) :=
  items.foldl (fun m it => addLA m (get_item_core it) it.2.2.2) m

/-- Rebuild the merged state from the core-to-lookaheads map
(`src/LALR/items.py`, lines 156-160). -/
def rebuild (m : List (Core × List String)) : List Item :=
  m.flatMap (fun p => p.2.map (fun la => (p.1.1, p.1.2.1, p.1.2.2, la)))

/-- The per-state body of the merge loop of `generate_lalr1_items`
(`src/LALR/items.py`, lines 130-166): a known core unions lookaheads into
the existing merged state; a new core starts a new one. -/
def mergeStep (acc : List (List Item) × List (List Core × Nat)) (state : List Item) :
    List (List Item) × List (List Core × Nat) :=
  let (result, cts) := acc
  let score := get_state_core state
  match coreLookup cts score with
  | some idx =>
    let existing := result.getD idx []
    (result.set idx (rebuild (ctlaFold (ctlaFold [] existing) state)), cts)
  | none => (result ++ [state], cts ++ [(score, result.length)])

/-- The full merge loop of `generate_lalr1_items`: merged states plus the
`core_to_state` mapping. -/
def mergeStates (states : List (List Item)) : List (List Item) × List (List Core × Nat) :=
  states.foldl mergeStep ([], [])

/-- The result of `generate_lalr1_items`: the merged states, the
`core_to_state` mapping stored on the grammar (line 169), and the merged
transitions (lines 172-185). -/
structure LalrResult where
  states : List (List Item)
  core_to_state : List (List Core × Nat)
  transitions : List (Nat × List (String × Nat))
deriving DecidableEq, Repr

/-- `generate_lalr1_items` (`src/LALR/items.py`, lines 120-187). -/
def generate_lalr1_items (g : Grammar) (fuel : Nat) (ord : List String → List String) :
    LalrResult :=
  let lr1 := generate_lr1_items g fuel ord
  let (result, cts) := mergeStates lr1
  let transitions := result.enum.map (fun p =>
    (p.1, (ord (nextSymbols p.2)).foldl (fun acc sym =>
      match coreLookup cts (get_state_core (goto g fuel p.2 sym)) with
      | some t => dinsert acc sym t
      | none => acc) []))
  ⟨result, cts, transitions⟩

/-- `get_production_number` inner production counter
(`src/LALR/grammar.py`, lines 73-81). -/
def prodFind (lhs : String) (rhs : List String) (nt : String) :
    List (List String) → Nat → Sum Nat Nat
  | [], cnt => .inr cnt
  | p :: ps, cnt => if nt = lhs ∧ p = rhs then .inl cnt else prodFind lhs rhs nt ps (cnt + 1)

/-- `get_production_number` outer loop over the rules dictionary. -/
def prodNumGo (lhs : String) (rhs : List String) : Rules → Nat → Int
  | [], _ => -1
  | (nt, prods) :: t, cnt =>
    match prodFind lhs rhs nt prods cnt with
    | .inl found => Int.ofNat found
    | .inr cnt' => prodNumGo lhs rhs t cnt'

/-- `Grammar.get_production_number` (`src/LALR/grammar.py`, lines 73-81):
the declaration-ordered index of a production, `-1` when absent. -/
def get_production_number (rules : Rules) (lhs : String) (rhs : List String) : Int :=
  prodNumGo lhs rhs rules 0

/-- The conflict message of `register_conflict`
(`src/LALR/parsing_tables.py`, lines 37-38). -/
def conflictMsg (state : Nat) (symbol old new : String) : String :=
  "Conflict in state " ++ toString state ++ " on symbol " ++ apos ++ symbol ++ apos ++
    ": " ++ old ++ " vs " ++ new

/-- One ACTION-cell write of `construct_parsing_tables`: the symbol, the
action string, and whether the write performs the occupied-cell conflict
check (the Accept write on line 74 does not). -/
abbrev Write := String × String × Bool

/-- The ACTION row of one state together with the global conflict list. -/
abbrev RowCf := List (String × String) × List String

/-- One ACTION-cell write of `construct_parsing_tables`
(`src/LALR/parsing_tables.py`, lines 59-62 and 81-84): a conflict is
registered when the cell is occupied, and the *new* action is then
assigned over the old one in both cases. -/
def writeAction (stIdx : Nat) (acc : RowCf) (w : Write) : RowCf :=
  match alookup w.1 acc.1 with
  | some old =>
    (dinsert acc.1 w.1 w.2.1,
     if w.2.2 then acc.2 ++ [conflictMsg stIdx w.1 old w.2.1] else acc.2)
  | none => (acc.1 ++ [(w.1, w.2.1)], acc.2)

/-- Apply a sequence of ACTION-cell writes in order. -/
def applyWrites (stIdx : Nat) (init : RowCf) (ws : List Write) : RowCf :=
  ws.foldl (writeAction stIdx) init

/-- The transition loop of `construct_parsing_tables`
(`src/LALR/parsing_tables.py`, lines 43-65): for each symbol after a dot,
compute goto, look its core up in `core_to_state`, and emit either a shift
write (terminals and the end marker) or a GOTO entry (nonterminals). -/
def shiftGotoWrites (g : Grammar) (fuel : Nat) (cts : List (List Core × Nat))
    (ord : List String → List String) (state : List Item) :
    List Write × List (String × Nat) :=
  (ord (nextSymbols state)).foldl (fun (ws, gr) symbol =>
    let gs := goto g fuel state symbol
    if !gs.isEmpty then
      match coreLookup cts (get_state_core gs) with
      | some next_state =>
        if symbol ∈ sinsert g.terminals "$" then
          (ws ++ [(symbol, "shift " ++ toString next_state, true)], gr)
        else (ws, dinsert gr symbol next_state)
      | none => (ws, gr)
    else (ws, gr)) ([], [])

/-- The reduce loop of `construct_parsing_tables`
(`src/LALR/parsing_tables.py`, lines 68-84): completed items become reduce
writes; a completed production of the start symbol whose right-hand side
is one nonterminal, under the end marker, becomes the unchecked Accept
write. -/
def reduceWrites (g : Grammar) (state : List Item) : List Write :=
  state.foldl (fun acc it =>
    let (lhs, rhs, dot, lookahead) := it
    if dot = rhs.length then
      if lhs = g.start_symbol ∧ lookahead = "$" ∧ rhs.length = 1 ∧
          rhs.headD "" ∈ g.non_terminals then
        acc ++ [("$", "accept", false)]
      else
        acc ++ [(lookahead, "reduce " ++ toString (get_production_number g.rules lhs rhs), true)]
    else acc) []

/-- `construct_parsing_tables` (`src/LALR/parsing_tables.py`, lines
10-86): per state, the shift writes precede the reduce writes; conflicts
accumulate globally.  The `core_to_state` dictionary is the one stored on
the grammar by `generate_lalr1_items`. -/
def construct_parsing_tables (g : Grammar) (fuel : Nat) (ord : List String → List String)
    (states : List (List Item)) (cts : List (List Core × Nat)) :
    List (Nat × List (String × String)) × List (Nat × List (String × Nat)) × List String :=
  let (atbl, gtbl, cf) := states.enum.foldl (fun (atbl, gtbl, cf) p =>
    let (sw, gr) := shiftGotoWrites g fuel cts ord p.2
    let rw := reduceWrites g p.2
    let (row, cf') := applyWrites p.1 ([], cf) (sw ++ rw)
    (atbl ++ [(p.1, row)], gtbl ++ [(p.1, gr)], cf'))
    (([] : List (Nat × List (String × String))), ([] : List (Nat × List (String × Nat))),
     ([] : List String))
  (atbl, gtbl, cf)

end LALR

namespace LR

/-- An LR(1) item tuple `(lhs, rhs, dot_position, lookahead)` of the
`LR1Item` class (`src/LR/lr1_items.py`). -/
abbrev Item := String × List String × Nat × String

/-- An `LR1State` of `src/LR/lr1_items.py`: its item frozenset (modelled
as a list in iteration order) and its transition dictionary. -/
structure AutState where
  items : List Item
  transitions : List (String × Nat)
deriving DecidableEq, Repr, Inhabited

/-- An ACTION entry of `construct_parsing_table`
(`src/LR/parsing_table.py`): the tuples `('shift', s)`, `('reduce', n)` —
with `n` the raw `get_production_number` result, an integer that is `-1`
when the production is absent — and `('accept', None)`. -/
inductive TAction where
  | shift (n : Nat)
  | reduce (n : Int)
  | accept
deriving DecidableEq, Repr

/-- The counter of `productions.index` for `get_production_number`. -/
def prodIndexAux (prod : String × List String) : List (String × List String) → Nat → Int
  | [], _ => -1
  | p :: t, i => if p = prod then Int.ofNat i else prodIndexAux prod t (i + 1)

/-- `Grammar.get_production_number` (`src/LR/grammar.py`, lines 97-103):
the index of the production in the declaration-ordered list, `-1` when
absent. -/
def get_production_number (g : Grammar) (lhs : String) (rhs : List String) : Int :=
  prodIndexAux (lhs, rhs) g.productions 0

/-- The shift-reduce conflict message of `construct_parsing_table`
(`src/LR/parsing_table.py`, lines 43 and 66): it names the state and the
symbol but neither action. -/
def shiftReduceMsg (state_idx : Nat) (symbol : String) : String :=
  "Shift-reduce conflict in state " ++ toString state_idx ++ " on symbol " ++ symbol

/-- The reduce-reduce conflict message (line 70), likewise naming no
actions. -/
def reduceReduceMsg (state_idx : Nat) (symbol : String) : String :=
  "Reduce-reduce conflict in state " ++ toString state_idx ++ " on symbol " ++ symbol

/-- Case 1 of `construct_parsing_table` (`src/LR/parsing_table.py`, lines
32-50): writing `('shift', next_state)`.  On an occupied cell, a
shift-reduce message is appended when the cell holds a reduce (the `elif`
of line 45 also requires the existing action to be a reduce, so it is
unreachable after the first branch and its `continue` never fires), and
the shift is then assigned over whatever the cell held. -/
def shiftWrite (action_table : List ((Nat × String) × TAction)) (conflicts : List String)
    (state_idx : Nat) (next_symbol : String) (next_state : Nat) :
    List ((Nat × String) × TAction) × List String :=
  match alookup (state_idx, next_symbol) action_table with
  | some existing_action =>
    let conflicts := match existing_action with
      | .reduce _ => conflicts ++ [shiftReduceMsg state_idx next_symbol]
      | _ => conflicts
    (dinsert action_table (state_idx, next_symbol) (.shift next_state), conflicts)
  | none => (action_table ++ [((state_idx, next_symbol), .shift next_state)], conflicts)

/-- Case 2 of `construct_parsing_table` (`src/LR/parsing_table.py`, lines
58-75): writing `('reduce', production_num)`.  On an occupied cell
holding a shift or a reduce, the matching kind message is appended and
`continue` keeps the first-written action; a cell holding an accept
matches neither test and is silently overwritten. -/
def reduceWrite (action_table : List ((Nat × String) × TAction)) (conflicts : List String)
    (state_idx : Nat) (lookahead : String) (production_num : Int) :
    List ((Nat × String) × TAction) × List String :=
  match alookup (state_idx, lookahead) action_table with
  | some existing_action =>
    match existing_action with
    | .shift _ => (action_table, conflicts ++ [shiftReduceMsg state_idx lookahead])
    | .reduce _ => (action_table, conflicts ++ [reduceReduceMsg state_idx lookahead])
    | .accept => (dinsert action_table (state_idx, lookahead) (.reduce production_num), conflicts)
  | none => (action_table ++ [((state_idx, lookahead), .reduce production_num)], conflicts)

/-- The per-item body of `construct_parsing_table` (lines 29-75): a
terminal after the dot with a recorded transition yields a shift write; a
completed item yields either the Accept write — for the completed
augmented item under the end marker, an *unconditional, unchecked*
assignment (line 56) — or a reduce write; any other item writes
nothing. -/
def itemWrite (g : Grammar) (state_idx : Nat) (transitions : List (String × Nat))
    (acc : List ((Nat × String) × TAction) × List String) (it : Item) :
    List ((Nat × String) × TAction) × List String :=
  let (action_table, conflicts) := acc
  let (lhs, rhs, dot, lookahead) := it
  match rhs.drop dot with
  | next_symbol :: _ =>
    if next_symbol ∈ g.terminals then
      match alookup next_symbol transitions with
      | some next_state => shiftWrite action_table conflicts state_idx next_symbol next_state
      | none => acc
    else acc
  | [] =>
    if lhs = g.start_symbol ∧ rhs = (g.productions.headD ("", [])).2 ∧ lookahead = "$" then
      (dinsert action_table (state_idx, "$") .accept, conflicts)
    else
      reduceWrite action_table conflicts state_idx lookahead (get_production_number g lhs rhs)

/-- `construct_parsing_table` (`src/LR/parsing_table.py`, lines 8-82):
for every state, fold the item writes (items in the modelled frozenset
order), then add a GOTO entry for each nonterminal transition. -/
def construct_parsing_table (automaton : List AutState) (g : Grammar) :
    List ((Nat × String) × TAction) × List ((Nat × String) × Nat) × List String :=
  automaton.enum.foldl (fun acc p =>
    let (action_table, conflicts) :=
      p.2.items.foldl (itemWrite g p.1 p.2.transitions) (acc.1, acc.2.2)
    let goto_table := p.2.transitions.foldl (fun gt q =>
      if q.1 ∈ g.non_terminals then dinsert gt (p.1, q.1) q.2 else gt) acc.2.1
    (action_table, goto_table, conflicts)) ([], [], [])

end LR

/-! Concrete instances used by the counterexamples and witnesses below. -/

/-- The LR grammar built from `S -> a |`, whose third production is the
epsilon production. -/
def lrG4 : LR.Grammar :=
  match LR.parseGrammar "S -> a |" with
  | .ok g => g
  | .error _ => default

/-- An ACTION table driving `lrG4` into a reduce by its epsilon
production. -/
def at4 : List ((Nat × String) × LR.PyAction) :=
  [((0, "a"), .shift 1), ((1, "$"), .reduce 2)]

/-- A GOTO table for the `lrG4` run. -/
def gt4 : List ((Nat × String) × Nat) :=
  [((0, "S"), 3)]

/-- The LR grammar built from `S -> a`. -/
def lrG5 : LR.Grammar :=
  match LR.parseGrammar "S -> a" with
  | .ok g => g
  | .error _ => default

/-- An ACTION table for `lrG5` whose reduce step meets an empty GOTO
table: the malformed-table scenario of the MissingGotoError taxonomy. -/
def at5 : List ((Nat × String) × LR.PyAction) :=
  [((0, "a"), .shift 1), ((1, "$"), .reduce 1)]

/-- The LR grammar of the mutually recursive pair `A -> B x | y`,
`B -> A z | w`. -/
def lrGAB : LR.Grammar :=
  match LR.parseGrammar "A -> B x | y\nB -> A z | w" with
  | .ok g => g
  | .error _ => default

/-- The LALR grammar of the same mutually recursive pair, with the
nonterminal set visited in its insertion order `A`, `B`. -/
def lalrGAB : LALR.Grammar :=
  match LALR.mkGrammar "A -> B x | y\nB -> A z | w" id 20 with
  | .ok g => g
  | .error _ => default

/-- The LALR grammar of the ambiguous `S -> S S | a`. -/
def lalrG1 : LALR.Grammar :=
  match LALR.mkGrammar "S -> S S | a" id 20 with
  | .ok g => g
  | .error _ => default

/-- Its merged automaton. -/
def lalrR1 : LALR.LalrResult := LALR.generate_lalr1_items lalrG1 20 id

/-- Its ACTION/GOTO tables and conflict list. -/
def lalrT1 : List (Nat × List (String × String)) × List (Nat × List (String × Nat)) × List String :=
  LALR.construct_parsing_tables lalrG1 20 id lalrR1.states lalrR1.core_to_state

/-- The LALR grammar of `S -> A`, `A -> a | b`, whose initial state has
three outgoing symbols. -/
def lalrG9 : LALR.Grammar :=
  match LALR.mkGrammar "S -> A\nA -> a | b" id 20 with
  | .ok g => g
  | .error _ => default

/-- The grammar text `S -> S'`, whose only right-hand-side symbol equals
the fresh start-symbol name the augmentation will pick. -/
def spInput : String := "S -> S" ++ apos

/-- The LR grammar built from `S -> S'`. -/
def lrGSP : LR.Grammar :=
  match LR.parseGrammar spInput with
  | .ok g => g
  | .error _ => default

/-- The parse state reached after processing the single line `S -> a`. -/
def pgW : LR.PG :=
  ⟨[("S", ["a"])], ["S"], ["a"], some "S"⟩

/-- The canonical LR(1) state of `lalrG1` whose core duplicates an earlier
one (discovery index 4). -/
def c8State : List LALR.Item :=
  [("S", ["a"], 1, "a"), ("S", ["a"], 1, "$")]

/-- A canonical state is well-placed in a merge accumulator when its core
is mapped and every one of its items already sits in the mapped merged
state. -/
def MergeGood (acc : List (List LALR.Item) × List (List LALR.Core × Nat))
    (st : List LALR.Item) : Prop :=
  ∃ j, LALR.coreLookup acc.2 (LALR.get_state_core st) = some j ∧
    ∀ it ∈ st, it ∈ acc.1.getD j []

/-- Every index registered in `core_to_state` points inside the merged
state list. -/
def MergeInv (acc : List (List LALR.Item) × List (List LALR.Core × Nat)) : Prop :=
  ∀ kv ∈ acc.2, kv.2 < acc.1.length

/-- The terminal/nonterminal disjointness invariant of the LR parse
phase, together with epsilon never being a terminal. -/
def TInv (st : LR.PG) : Prop :=
  (∀ x ∈ st.terminals, x ∉ st.non_terminals) ∧ LR.epsilon ∉ st.terminals

/-! Generic lemmas about the container helpers. -/

theorem mem_sinsert_iff {α : Type} [DecidableEq α] (s : List α) (x y : α) :
    y ∈ sinsert s x ↔ y ∈ s ∨ y = x := by
  unfold sinsert
  split
  · constructor
    · exact fun h => Or.inl h
    · rintro (h | rfl) <;> [exact h; assumption]
  · simp [List.mem_append]

theorem mem_sinsert_self {α : Type} [DecidableEq α] (s : List α) (x : α) :
    x ∈ sinsert s x :=
  (mem_sinsert_iff s x x).2 (Or.inr rfl)

theorem mem_sinsert_of_mem {α : Type} [DecidableEq α] (s : List α) (x y : α) (h : y ∈ s) :
    y ∈ sinsert s x :=
  (mem_sinsert_iff s x y).2 (Or.inl h)

theorem alookup_dinsert_self {α β : Type} [DecidableEq α] (l : List (α × β)) (k : α) (v : β) :
    alookup k (dinsert l k v) = some v := by
  induction l with
  | nil => simp [dinsert, alookup]
  | cons hd t ih =>
    obtain ⟨k', v'⟩ := hd
    by_cases h : k' = k <;> simp [dinsert, alookup, h, ih]

theorem alookup_dinsert_ne {α β : Type} [DecidableEq α] (l : List (α × β)) (k k' : α) (v : β)
    (h : k' ≠ k) : alookup k (dinsert l k' v) = alookup k l := by
  induction l with
  | nil => simp [dinsert, alookup, h]
  | cons hd t ih =>
    obtain ⟨k'', v''⟩ := hd
    by_cases h2 : k'' = k'
    · subst h2
      simp only [dinsert, if_pos rfl]
      simp [alookup, h]
    · simp only [dinsert, if_neg h2]
      by_cases h3 : k'' = k <;> simp [alookup, h3, ih]

theorem alookup_append_some {α β : Type} [DecidableEq α] (l l' : List (α × β)) (k : α) (v : β)
    (h : alookup k l = some v) : alookup k (l ++ l') = some v := by
  induction l with
  | nil => simp [alookup] at h
  | cons hd t ih =>
    obtain ⟨k', v'⟩ := hd
    by_cases h2 : k' = k <;> simp_all [alookup]

theorem alookup_mem {α β : Type} [DecidableEq α] (l : List (α × β)) (k : α) (v : β)
    (h : alookup k l = some v) : (k, v) ∈ l := by
  induction l with
  | nil => simp [alookup] at h
  | cons hd t ih =>
    obtain ⟨k', v'⟩ := hd
    by_cases h2 : k' = k
    · subst h2
      simp [alookup] at h
      simp [h]
    · simp [alookup, h2] at h
      exact List.mem_cons_of_mem _ (ih h)

theorem getD_set_self {α : Type} (l : List α) (i : Nat) (a d : α) (h : i < l.length) :
    (l.set i a).getD i d = a := by
  induction l generalizing i with
  | nil => simp at h
  | cons hd t ih =>
    cases i with
    | zero => simp [List.set, List.getD]
    | succ n =>
      simp only [List.set, List.getD] at *
      exact ih n (by simpa using h)

theorem getD_set_ne {α : Type} (l : List α) (i j : Nat) (a d : α) (h : i ≠ j) :
    (l.set i a).getD j d = l.getD j d := by
  induction l generalizing i j with
  | nil => simp [List.set]
  | cons hd t ih =>
    cases i with
    | zero =>
      cases j with
      | zero => exact absurd rfl h
      | succ m => simp [List.set, List.getD]
    | succ n =>
      cases j with
      | zero => simp [List.set, List.getD]
      | succ m =>
        simp only [List.set, List.getD] at *
        exact ih n m (fun he => h (by rw [he]))

theorem getD_append_lt {α : Type} (l l' : List α) (j : Nat) (d : α) (h : j < l.length) :
    (l ++ l').getD j d = l.getD j d := by
  induction l generalizing j with
  | nil => simp at h
  | cons hd t ih =>
    cases j with
    | zero => simp [List.getD]
    | succ m =>
      simp only [List.cons_append, List.getD] at *
      exact ih m (by simpa using h)

theorem getD_append_self {α : Type} (l : List α) (a : α) (d : α) :
    (l ++ [a]).getD l.length d = a := by
  induction l with
  | nil => simp [List.getD]
  | cons hd t ih => simp [List.getD, ih]

theorem foldl_preserve {α β : Type} (P : α → Prop) (f : α → β → α)
    (hf : ∀ a b, P a → P (f a b)) : ∀ (l : List β) (a : α), P a → P (l.foldl f a) := by
  intro l
  induction l with
  | nil => exact fun a h => h
  | cons hd t ih => exact fun a h => ih (f a hd) (hf a hd h)

/-! Lemmas about the LALR core-merging fold, towards C7 and C8. -/

theorem mergeStep_length (acc : List (List LALR.Item) × List (List LALR.Core × Nat))
    (state : List LALR.Item) :
    (LALR.mergeStep acc state).1.length ≤ acc.1.length + 1 := by
  obtain ⟨result, cts⟩ := acc
  unfold LALR.mergeStep
  rcases h : LALR.coreLookup cts (LALR.get_state_core state) with _ | idx <;> simp [h]

theorem mergeFold_length (l : List (List LALR.Item))
    (acc : List (List LALR.Item) × List (List LALR.Core × Nat)) :
    (l.foldl LALR.mergeStep acc).1.length ≤ acc.1.length + l.length := by
  induction l generalizing acc with
  | nil => simp
  | cons hd t ih =>
    calc (List.foldl LALR.mergeStep (LALR.mergeStep acc hd) t).1.length
        ≤ (LALR.mergeStep acc hd).1.length + t.length := ih _
      _ ≤ acc.1.length + 1 + t.length := by
          have := mergeStep_length acc hd
          omega
      _ = acc.1.length + (hd :: t).length := by simp; omega

/-- C7: for every grammar (and fuel and symbol-visitation order), the
LALR(1) core-merging of `generate_lalr1_items` produces at most as many
states as the canonical LR(1) construction `generate_lr1_items` it starts
from: each canonical state either merges into an existing core or starts
exactly one new merged state. -/
theorem lalr_state_count_le_lr1 (g : LALR.Grammar) (fuel : Nat)
    (ord : List String → List String) :
    (LALR.generate_lalr1_items g fuel ord).states.length ≤
      (LALR.generate_lr1_items g fuel ord).length := by
  have h := mergeFold_length (LALR.generate_lr1_items g fuel ord) ([], [])
  simpa [LALR.mergeStates] using h

/-- C9 (amended): for a fixed grammar, fixed fuel, and a fixed iteration
order of the per-state symbol sets, the automaton construction, the
merge, and the table construction are deterministic: equal order
parameters give identical state lists, merged results, and tables.  (The
order parameter models the iteration order of Python `set` objects, which
the language leaves unspecified; the counterexample shows the state
numbering genuinely depends on it.) -/
theorem pipeline_deterministic_given_order (g : LALR.Grammar) (fuel : Nat)
    (ord1 ord2 : List String → List String) (h : ord1 = ord2) :
    LALR.generate_lr1_items g fuel ord1 = LALR.generate_lr1_items g fuel ord2 ∧
    LALR.generate_lalr1_items g fuel ord1 = LALR.generate_lalr1_items g fuel ord2 ∧
    LALR.construct_parsing_tables g fuel ord1 (LALR.generate_lalr1_items g fuel ord1).states
        (LALR.generate_lalr1_items g fuel ord1).core_to_state =
      LALR.construct_parsing_tables g fuel ord2 (LALR.generate_lalr1_items g fuel ord2).states
        (LALR.generate_lalr1_items g fuel ord2).core_to_state := by
  subst h
  exact ⟨rfl, rfl, rfl⟩

/-- Witness for the C9 amended theorem at a concrete grammar and order. -/
theorem pipeline_deterministic_given_order_witness :
    LALR.generate_lr1_items lalrG9 20 id = LALR.generate_lr1_items lalrG9 20 id ∧
    LALR.generate_lalr1_items lalrG9 20 id = LALR.generate_lalr1_items lalrG9 20 id ∧
    LALR.construct_parsing_tables lalrG9 20 id (LALR.generate_lalr1_items lalrG9 20 id).states
        (LALR.generate_lalr1_items lalrG9 20 id).core_to_state =
      LALR.construct_parsing_tables lalrG9 20 id (LALR.generate_lalr1_items lalrG9 20 id).states
        (LALR.generate_lalr1_items lalrG9 20 id).core_to_state :=
  pipeline_deterministic_given_order lalrG9 20 id id rfl

/-- C9 (counterexample): two admissible iteration orders of the symbol
sets — identity and reversal — give the same grammar different canonical
state numberings, so the construction is not deterministic independently
of the set-iteration order (which varies across Python runs under hash
randomization). -/
theorem state_numbering_order_dependent_cx :
    LALR.generate_lr1_items lalrG9 20 id ≠ LALR.generate_lr1_items lalrG9 20 List.reverse := by
  decide

/-! Lemmas about the ACTION-cell write discipline, towards C1. -/

theorem alookup_append_ne {α β : Type} [DecidableEq α] (l : List (α × β)) (k sym : α) (v : β)
    (h : k ≠ sym) : alookup sym (l ++ [(k, v)]) = alookup sym l := by
  induction l with
  | nil => simp [alookup, h]
  | cons hd t ih =>
    obtain ⟨k', v'⟩ := hd
    by_cases h2 : k' = sym <;> simp [alookup, h2, ih]

theorem writeAction_cf_mono (stIdx : Nat) (acc : LALR.RowCf) (w : LALR.Write) (m : String)
    (h : m ∈ acc.2) : m ∈ (LALR.writeAction stIdx acc w).2 := by
  unfold LALR.writeAction
  rcases h2 : alookup w.1 acc.1 with _ | old <;> simp [h2]
  · exact h
  · rcases w with ⟨sym, act, checked⟩
    cases checked <;> simp [h, List.mem_append]

theorem writeAction_lookup_ne (stIdx : Nat) (acc : LALR.RowCf) (w : LALR.Write) (sym : String)
    (h : w.1 ≠ sym) : alookup sym (LALR.writeAction stIdx acc w).1 = alookup sym acc.1 := by
  unfold LALR.writeAction
  rcases h2 : alookup w.1 acc.1 with _ | old <;> simp [h2]
  · exact alookup_append_ne acc.1 w.1 sym w.2.1 h
  · exact alookup_dinsert_ne acc.1 sym w.1 w.2.1 h

theorem applyWrites_stable (stIdx : Nat) (sym : String) :
    ∀ (ws : List LALR.Write) (acc : LALR.RowCf), (∀ w ∈ ws, w.1 ≠ sym) →
      alookup sym (LALR.applyWrites stIdx acc ws).1 = alookup sym acc.1 ∧
      ∀ m ∈ acc.2, m ∈ (LALR.applyWrites stIdx acc ws).2 := by
  intro ws
  induction ws with
  | nil => exact fun acc _ => ⟨rfl, fun m h => h⟩
  | cons w t ih =>
    intro acc hws
    have hw : w.1 ≠ sym := hws w (List.mem_cons_self w t)
    have ht : ∀ w' ∈ t, w'.1 ≠ sym := fun w' h' => hws w' (List.mem_cons_of_mem w h')
    have step := ih (LALR.writeAction stIdx acc w) ht
    refine ⟨?_, ?_⟩
    · calc alookup sym (LALR.applyWrites stIdx acc (w :: t)).1
          = alookup sym (LALR.writeAction stIdx acc w).1 := step.1
        _ = alookup sym acc.1 := writeAction_lookup_ne stIdx acc w sym hw
    · intro m hm
      exact step.2 m (writeAction_cf_mono stIdx acc w m hm)

/-- C1 (amended): occupied-cell ACTION writes record conflicts and never
abort — conflicts accumulate and are returned alongside the tables — but
what the Conflict names and which action the cell keeps differ by
implementation and write kind.  (i) A conflict-checked write of the LALR
builder (`construct_parsing_tables`) appends a Conflict naming the state,
the symbol and both actions, and the cell keeps the *newly written*
action through the remaining writes of the state; (ii) its unchecked
Accept write overwrites an occupied cell recording nothing; (iii) a
reduce write of the LR builder (`construct_parsing_table`) into a cell
holding a shift appends the shift-reduce message — naming state and
symbol but no actions — and keeps the cell unchanged (the first-written
action wins); (iv) into a cell holding a reduce it appends the
reduce-reduce message and keeps the cell unchanged; (v) a shift write of
the LR builder into a cell holding a reduce appends the shift-reduce
message and replaces the cell with the shift. -/
theorem conflict_write_policies :
    (∀ (stIdx : Nat) (row : List (String × String)) (cf : List String)
        (sym act old : String) (ws : List LALR.Write),
      alookup sym row = some old → (∀ w ∈ ws, w.1 ≠ sym) →
      LALR.conflictMsg stIdx sym old act ∈
        (LALR.applyWrites stIdx (row, cf) ((sym, act, true) :: ws)).2 ∧
      alookup sym (LALR.applyWrites stIdx (row, cf) ((sym, act, true) :: ws)).1 = some act) ∧
    (∀ (stIdx : Nat) (row : List (String × String)) (cf : List String) (sym act old : String),
      alookup sym row = some old →
      (LALR.writeAction stIdx (row, cf) (sym, act, false)).2 = cf ∧
      alookup sym (LALR.writeAction stIdx (row, cf) (sym, act, false)).1 = some act) ∧
    (∀ (tbl : List ((Nat × String) × LR.TAction)) (cf : List String)
        (stIdx : Nat) (la : String) (p : Int) (n : Nat),
      alookup (stIdx, la) tbl = some (LR.TAction.shift n) →
      LR.reduceWrite tbl cf stIdx la p = (tbl, cf ++ [LR.shiftReduceMsg stIdx la])) ∧
    (∀ (tbl : List ((Nat × String) × LR.TAction)) (cf : List String)
        (stIdx : Nat) (la : String) (p m : Int),
      alookup (stIdx, la) tbl = some (LR.TAction.reduce m) →
      LR.reduceWrite tbl cf stIdx la p = (tbl, cf ++ [LR.reduceReduceMsg stIdx la])) ∧
    (∀ (tbl : List ((Nat × String) × LR.TAction)) (cf : List String)
        (stIdx : Nat) (sym : String) (n : Nat) (m : Int),
      alookup (stIdx, sym) tbl = some (LR.TAction.reduce m) →
      LR.shiftWrite tbl cf stIdx sym n =
        (dinsert tbl (stIdx, sym) (LR.TAction.shift n), cf ++ [LR.shiftReduceMsg stIdx sym])) := by
  refine ⟨?_, ?_, ?_, ?_, ?_⟩
  · intro stIdx row cf sym act old ws hold hws
    have h1 : LALR.writeAction stIdx (row, cf) (sym, act, true) =
        (dinsert row sym act, cf ++ [LALR.conflictMsg stIdx sym old act]) := by
      simp [LALR.writeAction, hold]
    have h2 : LALR.applyWrites stIdx (row, cf) ((sym, act, true) :: ws) =
        LALR.applyWrites stIdx
          (dinsert row sym act, cf ++ [LALR.conflictMsg stIdx sym old act]) ws := by
      simp [LALR.applyWrites, h1]
    rw [h2]
    have stable := applyWrites_stable stIdx sym ws
      (dinsert row sym act, cf ++ [LALR.conflictMsg stIdx sym old act]) hws
    refine ⟨stable.2 _ (by simp), ?_⟩
    rw [stable.1]
    exact alookup_dinsert_self row sym act
  · intro stIdx row cf sym act old hold
    constructor
    · simp [LALR.writeAction, hold]
    · simp only [LALR.writeAction, hold]
      exact alookup_dinsert_self row sym act
  · intro tbl cf stIdx la p n h
    simp [LR.reduceWrite, h]
  · intro tbl cf stIdx la p m h
    simp [LR.reduceWrite, h]
  · intro tbl cf stIdx sym n m h
    simp [LR.shiftWrite, h]

/-- Witness for the C1 amended theorem: each write policy exercised at a
concrete occupied cell — the LALR checked write keeps `reduce 0` over
`shift 2` and names both in the conflict; the LALR Accept write
overwrites `reduce 1` recording nothing; the LR reduce writes keep the
existing `shift 2` and `reduce 0`; the LR shift write replaces the
existing `reduce 0`. -/
theorem conflict_write_policies_witness :
    (LALR.conflictMsg 3 "a" "shift 2" "reduce 0" ∈
        (LALR.applyWrites 3 ([("a", "shift 2")], []) [("a", "reduce 0", true)]).2 ∧
      alookup "a" (LALR.applyWrites 3 ([("a", "shift 2")], []) [("a", "reduce 0", true)]).1 =
        some "reduce 0") ∧
    ((LALR.writeAction 0 ([("$", "reduce 1")], []) ("$", "accept", false)).2 = ([] : List String) ∧
      alookup "$" (LALR.writeAction 0 ([("$", "reduce 1")], []) ("$", "accept", false)).1 =
        some "accept") ∧
    LR.reduceWrite [((1, "a"), LR.TAction.shift 2)] [] 1 "a" 0 =
      ([((1, "a"), LR.TAction.shift 2)], [LR.shiftReduceMsg 1 "a"]) ∧
    LR.reduceWrite [((1, "a"), LR.TAction.reduce 0)] [] 1 "a" 1 =
      ([((1, "a"), LR.TAction.reduce 0)], [LR.reduceReduceMsg 1 "a"]) ∧
    LR.shiftWrite [((1, "a"), LR.TAction.reduce 0)] [] 1 "a" 2 =
      (dinsert [((1, "a"), LR.TAction.reduce 0)] (1, "a") (LR.TAction.shift 2),
        [LR.shiftReduceMsg 1 "a"]) :=
  ⟨conflict_write_policies.1 3 [("a", "shift 2")] [] "a" "reduce 0" "shift 2" []
      (by decide) (by simp),
    conflict_write_policies.2.1 0 [("$", "reduce 1")] [] "$" "accept" "reduce 1" (by decide),
    conflict_write_policies.2.2.1 [((1, "a"), LR.TAction.shift 2)] [] 1 "a" 0 2 (by decide),
    conflict_write_policies.2.2.2.1 [((1, "a"), LR.TAction.reduce 0)] [] 1 "a" 1 0 (by decide),
    conflict_write_policies.2.2.2.2 [((1, "a"), LR.TAction.reduce 0)] [] 1 "a" 2 0 (by decide)⟩

/-- C1 (counterexample): on the grammar `S -> S S | a` the LALR pipeline
registers exactly one conflict, naming `shift 2` (written first) and
`reduce 0` (written second), and the final ACTION cell holds `reduce 0`:
the first-written action is *not* kept, contradicting the claim. -/
theorem lalr_first_written_not_kept_cx :
    lalrT1.2.2 = [LALR.conflictMsg 3 "a" "shift 2" "reduce 0"] ∧
    alookup "a" ((alookup 3 lalrT1.1).getD []) = some "reduce 0" ∧
    ("reduce 0" : String) ≠ "shift 2" :=
  ⟨by decide, by decide, by decide⟩

/-! Lemmas towards C3: the augmentation loop really avoids the existing
nonterminals. -/

theorem countP_mono_of_imp {α : Type} (l : List α) (p q : α → Bool)
    (himp : ∀ y, p y = true → q y = true) : l.countP p ≤ l.countP q := by
  induction l with
  | nil => simp
  | cons a t ih =>
    rw [List.countP_cons, List.countP_cons]
    by_cases hpa : p a = true
    · simp [hpa, himp a hpa]
      omega
    · simp only [eq_false_of_ne_true hpa, if_false]
      by_cases hqa : q a = true <;> simp [hqa] <;> omega

theorem countP_lt_of_witness {α : Type} (l : List α) (p q : α → Bool) (x : α)
    (hx : x ∈ l) (hpx : p x = false) (hqx : q x = true)
    (himp : ∀ y, p y = true → q y = true) : l.countP p < l.countP q := by
  induction l with
  | nil => simp at hx
  | cons a t ih =>
    rw [List.countP_cons, List.countP_cons]
    rcases List.mem_cons.1 hx with rfl | hxt
    · have hmono := countP_mono_of_imp t p q himp
      simp [hpx, hqx]
      omega
    · have := ih hxt
      by_cases hpa : p a = true
      · simp [hpa, himp a hpa]
        omega
      · simp only [eq_false_of_ne_true hpa, if_false]
        by_cases hqa : q a = true <;> simp [hqa] <;> omega

theorem apos_length : apos.length = 1 := rfl

theorem freshStart_not_mem (nts : List String) :
    ∀ (fuel : Nat) (c : String),
      nts.countP (fun x => decide (c.length ≤ x.length)) < fuel →
      LR.freshStart nts fuel c ∉ nts := by
  intro fuel
  induction fuel with
  | zero => intro c h; omega
  | succ n ih =>
    intro c h
    unfold LR.freshStart
    by_cases hc : c ∈ nts
    · simp only [if_pos hc]
      apply ih
      have hlen : (c ++ apos).length = c.length + 1 := by
        rw [String.length_append, apos_length]
      have hstrict : nts.countP (fun x => decide ((c ++ apos).length ≤ x.length)) <
          nts.countP (fun x => decide (c.length ≤ x.length)) := by
        apply countP_lt_of_witness nts _ _ c hc
        · simp [hlen]
        · simp
        · intro y hy
          simp only [decide_eq_true_eq] at hy ⊢
          omega
      omega
    · simp [if_neg hc, hc]

/-- C3 (amended): the LR implementation augments correctly — for any
parse state with a start symbol, `augment_grammar` prepends the
production from the fresh start symbol to the old one, makes the fresh
symbol the start symbol, and the fresh symbol collides with no existing
nonterminal.  (The LALR implementation, per the counterexample, performs
no augmentation at all, and its Accept detection instead fires for any
completed production of the unaugmented start symbol whose right-hand
side is a single nonterminal, under end-marker lookahead.) -/
theorem lr_augment_prepends_fresh_start (st : LR.PG) (s : String)
    (h : st.start_symbol = some s) :
    LR.augment_grammar st = .ok
      ⟨(LR.freshStart st.non_terminals (st.non_terminals.length + 1) (s ++ apos), [s]) ::
          st.productions,
        sinsert st.non_terminals
          (LR.freshStart st.non_terminals (st.non_terminals.length + 1) (s ++ apos)),
        st.terminals,
        LR.freshStart st.non_terminals (st.non_terminals.length + 1) (s ++ apos)⟩ ∧
    LR.freshStart st.non_terminals (st.non_terminals.length + 1) (s ++ apos) ∉
      st.non_terminals := by
  constructor
  · simp [LR.augment_grammar, h]
  · apply freshStart_not_mem
    have := List.countP_le_length (l := st.non_terminals)
      (p := fun x => decide ((s ++ apos).length ≤ x.length))
    omega

/-- Witness for the C3 amended theorem on the parse state of `S -> a`. -/
theorem lr_augment_prepends_fresh_start_witness :
    LR.augment_grammar pgW = .ok
      ⟨(LR.freshStart pgW.non_terminals (pgW.non_terminals.length + 1) ("S" ++ apos), ["S"]) ::
          pgW.productions,
        sinsert pgW.non_terminals
          (LR.freshStart pgW.non_terminals (pgW.non_terminals.length + 1) ("S" ++ apos)),
        pgW.terminals,
        LR.freshStart pgW.non_terminals (pgW.non_terminals.length + 1) ("S" ++ apos)⟩ ∧
    LR.freshStart pgW.non_terminals (pgW.non_terminals.length + 1) ("S" ++ apos) ∉
      pgW.non_terminals :=
  lr_augment_prepends_fresh_start pgW "S" rfl

/-- C3 (counterexample): the LALR `Grammar` constructor does not augment:
for the input `S -> a` the rules stay exactly as parsed, the start symbol
stays `S` (no fresh symbol is introduced and no production is
prepended). -/
theorem lalr_no_augmentation_cx :
    LALR.mkGrammar "S -> a" id 10 =
      .ok ⟨[("S", [["a"]])], "S", ["a"], ["S"], [("S", ["a"])]⟩ := by
  decide

/-- C6 (amended): in the LR implementation, when every earlier (non-blank,
non-comment) line processes successfully and a line without a production
arrow is reached, parsing aborts with the `ValueError` naming that line's
index (among the filtered lines, starting at `i0 + 1`) and its text.  (The
LALR implementation, per the counterexample, aborts with a bare unpacking
error naming neither.) -/
theorem lr_arrow_error_names_line (pre : List String) (line : String) (post : List String)
    (st st' : LR.PG) (i0 : Nat)
    (h1 : LR.processLines st i0 pre = .ok st')
    (h2 : (splitArrow line.data).length = 1) :
    LR.processLines st i0 (pre ++ line :: post) =
      .error (LR.arrowErr (i0 + pre.length) line) := by
  induction pre generalizing st i0 with
  | nil =>
    obtain ⟨a, ha⟩ : ∃ a, splitArrow line.data = [a] := by
      rcases hs : splitArrow line.data with _ | ⟨a, _ | ⟨b, t⟩⟩ <;> simp [hs] at h2 ⊢
    simp [LR.processLines, LR.processLine, ha]
  | cons p pre' ih =>
    rcases hp : LR.processLine st i0 p with e | stp
    · simp [LR.processLines, hp] at h1
    · have h1' : LR.processLines stp (i0 + 1) pre' = .ok st' := by
        simpa [LR.processLines, hp] using h1
      have := ih stp (i0 + 1) h1'
      simp only [List.cons_append, LR.processLines, hp, List.append_eq]
      have harith : i0 + 1 + pre'.length = i0 + (p :: pre').length := by
        simp
        omega
      rw [this, harith]

/-- Witness for the C6 amended theorem: after the good line `S -> a`, the
arrowless line `bad` is reported as line 2 with its text. -/
theorem lr_arrow_error_names_line_witness :
    LR.processLines LR.PG.init 0 ["S -> a"] = .ok pgW ∧
    (splitArrow ("bad").data).length = 1 ∧
    LR.processLines LR.PG.init 0 (["S -> a"] ++ ["bad"]) =
      .error (LR.arrowErr (0 + ["S -> a"].length) "bad") :=
  ⟨by decide, by decide,
    lr_arrow_error_names_line ["S -> a"] "bad" [] LR.PG.init pgW 0 (by decide) (by decide)⟩

/-- C6 (counterexample): the LALR grammar parser maps two different
offending lines — different text, different position — to the *same*
constant unpacking error, so its failure names neither the offending line
number nor the line's text, contradicting the claim for this
implementation. -/
theorem lalr_arrow_error_anonymous_cx :
    LALR.parse_grammar_input "S a" = .error LALR.unpackFewErr ∧
    LALR.parse_grammar_input "T -> x\nbad line" = .error LALR.unpackFewErr ∧
    "S a" ≠ "bad line" :=
  ⟨by decide, by decide, by decide⟩

/-! Lemmas towards C10: terminal/nonterminal disjointness of the parse
phase. -/

theorem addRhsSymbol_tinv (st : LR.PG) (symbol : String) (h : TInv st) :
    TInv (LR.addRhsSymbol st symbol) := by
  unfold LR.addRhsSymbol
  split
  · next hc =>
    obtain ⟨hne, hnm⟩ := hc
    refine ⟨?_, ?_⟩
    · intro x hx
      rcases (mem_sinsert_iff st.terminals symbol x).1 hx with hx' | rfl
      · exact h.1 x hx'
      · exact hnm
    · intro hx
      rcases (mem_sinsert_iff st.terminals symbol LR.epsilon).1 hx with hx' | heq
      · exact h.2 hx'
      · exact hne heq.symm
  · exact h

theorem addAlternative_tinv (lhs : String) (st : LR.PG) (alt : String) (h : TInv st) :
    TInv (LR.addAlternative lhs st alt) := by
  unfold LR.addAlternative
  split
  · exact h
  · exact foldl_preserve TInv LR.addRhsSymbol addRhsSymbol_tinv _ _ h

theorem processLine_tinv (st : LR.PG) (idx : Nat) (line : String) (st' : LR.PG)
    (hok : LR.processLine st idx line = .ok st') (h : TInv st) : TInv st' := by
  unfold LR.processLine at hok
  rcases hs : splitArrow line.data with _ | ⟨l, _ | ⟨r2, rest2⟩⟩ <;> rw [hs] at hok
  · simp at hok
  · simp at hok
  · by_cases hl : trimStr (String.mk l) = ""
    · simp [hl] at hok
    · simp only [hl, if_false] at hok
      set lhs := trimStr (String.mk l) with hlhs
      set stMid : LR.PG := { st with
        non_terminals := sinsert st.non_terminals lhs,
        terminals := if lhs ∈ st.terminals then sremove st.terminals lhs else st.terminals,
        start_symbol := match st.start_symbol with | none => some lhs | some s => some s }
      have hmid : TInv stMid := by
        have hterm : ∀ x ∈ stMid.terminals, x ∈ st.terminals ∧ x ≠ lhs := by
          intro x hx
          show x ∈ st.terminals ∧ x ≠ lhs
          by_cases hmem : lhs ∈ st.terminals
        
          · have hx' : x ∈ sremove st.terminals lhs := by
              simpa [stMid, hmem] using hx
            unfold sremove at hx'
            have := List.mem_filter.1 hx'
            refine ⟨this.1, by simpa using this.2⟩
          · have hx' : x ∈ st.terminals := by
              simpa [stMid, hmem] using hx
            exact ⟨hx', fun he => hmem (he ▸ hx')⟩
        refine ⟨?_, ?_⟩
        · intro x hx
          obtain ⟨hxt, hxl⟩ := hterm x hx
          show x ∉ sinsert st.non_terminals lhs
          intro hcon
          rcases (mem_sinsert_iff st.non_terminals lhs x).1 hcon with hx' | rfl
          · exact h.1 x hxt hx'
          · exact hxl rfl
        · intro hx
          exact h.2 (hterm LR.epsilon hx).1
      have := foldl_preserve TInv (LR.addAlternative lhs)
        (fun a b ha => addAlternative_tinv lhs a b ha)
        ((splitChar '|' (String.mk (joinArrow (r2 :: rest2))).data).map
          (fun a => trimStr (String.mk a))) stMid hmid
      simp only [Except.ok.injEq] at hok
      rw [← hok]
      exact this

theorem processLines_tinv :
    ∀ (lines : List String) (st : LR.PG) (idx : Nat) (st' : LR.PG),
      LR.processLines st idx lines = .ok st' → TInv st → TInv st' := by
  intro lines
  induction lines with
  | nil =>
    intro st idx st' hok h
    simp [LR.processLines] at hok
    exact hok ▸ h
  | cons l rest ih =>
    intro st idx st' hok h
    rcases hp : LR.processLine st idx l with e | stp
    · simp [LR.processLines, hp] at hok
    · have hok' : LR.processLines stp (idx + 1) rest = .ok st' := by
        simpa [LR.processLines, hp] using hok
      exact ih stp (idx + 1) st' hok' (processLine_tinv st idx l stp hp h)

/-- C10 (amended): before augmentation, the LR parse phase keeps the
terminal and nonterminal sets disjoint — a symbol that later appears as a
left-hand side is removed from the terminals — and the epsilon symbol
never enters the terminal set; in the LALR implementation `get_symbols`
always yields disjoint sets.  (Augmentation can break the LR disjointness
when the generated fresh start name equals an existing terminal, as the
counterexample `S -> S'` shows.) -/
theorem symbol_sets_disjoint_pre_augment :
    (∀ (lines : List String) (st' : LR.PG), LR.processLines LR.PG.init 0 lines = .ok st' →
      (∀ x ∈ st'.terminals, x ∉ st'.non_terminals) ∧ LR.epsilon ∉ st'.terminals) ∧
    (∀ rules : LALR.Rules, ∀ x ∈ (LALR.get_symbols rules).1, x ∉ (LALR.get_symbols rules).2) := by
  constructor
  · intro lines st' hok
    exact processLines_tinv lines LR.PG.init 0 st' hok (by constructor <;> simp [LR.PG.init])
  · intro rules
    unfold LALR.get_symbols
    simp only
    have inner : ∀ (ts : List String) (prod : List String),
        (∀ x ∈ ts, x ∉ rules.map (·.1)) →
        ∀ x ∈ prod.foldl (fun ts symbol =>
            if symbol ∉ rules.map (·.1) then sinsert ts symbol else ts) ts,
          x ∉ rules.map (·.1) := by
      intro ts prod h
      refine foldl_preserve (fun ts => ∀ x ∈ ts, x ∉ rules.map (·.1)) _ ?_ prod ts h
      intro a b ha
      by_cases hb : b ∈ rules.map (·.1)
      · rw [if_neg (not_not_intro hb)]
        exact ha
      · rw [if_pos hb]
        intro x hx
        rcases (mem_sinsert_iff a b x).1 hx with hx' | rfl
        · exact ha x hx'
        · exact hb
    have middle : ∀ (ts : List String) (rhs : String × List (List String)),
        (∀ x ∈ ts, x ∉ rules.map (·.1)) →
        ∀ x ∈ rhs.2.foldl (fun ts prod => prod.foldl (fun ts symbol =>
            if symbol ∉ rules.map (·.1) then sinsert ts symbol else ts) ts) ts,
          x ∉ rules.map (·.1) := by
      intro ts rhs h
      exact foldl_preserve (fun ts => ∀ x ∈ ts, x ∉ rules.map (·.1)) _
        (fun a b ha => inner a b ha) rhs.2 ts h
    exact foldl_preserve (fun ts => ∀ x ∈ ts, x ∉ rules.map (·.1)) _
      (fun a b ha => middle a b ha) rules [] (by simp)

/-- Witness for the C10 amended theorem on the input `S -> a`. -/
theorem symbol_sets_disjoint_pre_augment_witness :
    LR.processLines LR.PG.init 0 ["S -> a"] = .ok pgW ∧
    ((∀ x ∈ pgW.terminals, x ∉ pgW.non_terminals) ∧ LR.epsilon ∉ pgW.terminals) :=
  ⟨by decide, symbol_sets_disjoint_pre_augment.1 ["S -> a"] pgW (by decide)⟩

/-- C10 (counterexample): for the grammar text `S -> S'`, the LR
construction ends with `S'` in *both* the terminal set and the
nonterminal set — augmentation checks freshness only against the
nonterminals — so the constructed sets are not disjoint. -/
theorem augmented_symbol_sets_overlap_cx :
    LR.parseGrammar spInput = .ok lrGSP ∧
    ("S" ++ apos) ∈ lrGSP.terminals ∧ ("S" ++ apos) ∈ lrGSP.non_terminals :=
  ⟨by decide, by decide, by decide⟩

/-- C2: the memoized-recursive FIRST computation of the LALR grammar
module does not reach the least fixed point on the mutually recursive
grammar `A -> B x | y`, `B -> A z | w` (visiting `A` first): the grammar
holds the production `B -> A z` and the computed sets satisfy
`y ∈ FIRST(A)`, yet `FIRST(B) = {w}` misses `y`, which every fixed point
of the FIRST equations must contain; the iterative computation of the LR
module on the same text does contain it. -/
theorem lalr_recursive_first_under_computes :
    ["A", "z"] ∈ (alookup "B" lalrGAB.rules).getD [] ∧
    "y" ∈ (alookup "A" lalrGAB.first_sets).getD [] ∧
    alookup "B" lalrGAB.first_sets = some ["w"] ∧
    "y" ∈ (alookup "B" (LR.compute_first_sets lrGAB 20)).getD [] :=
  ⟨by decide, by decide, by decide, by decide⟩

/-- C4: the LR grammar module stores the empty alternative of `S -> a |`
as the one-symbol right-hand side `(ε)` (production 2), so the reduce
step of `parse_input` by that production pops `2 * 1 = 2` stack entries —
here the previously shifted pair `a`/state 1 — instead of the zero
entries the claim requires for an epsilon production. -/
theorem lr_epsilon_reduce_pops_two :
    lrG4.productions.getD 2 ("", []) = ("S", ["ε"]) ∧
    2 * (lrG4.productions.getD 2 ("", [])).2.length = 2 ∧
    LR.parse_input_step lrG4 at4 gt4 [.state 1, .symbol "a", .state 0] ["a", "$"] 1 =
      .next [.state 3, .symbol "S", .state 0] 1 :=
  ⟨by decide, by decide, by decide⟩

/-- C5: when a reduce step of `Grammar.test_input` finds no GOTO entry
(empty GOTO table on the grammar of `S -> a`), the parser pushes `None`,
silently continues, and then returns the *ordinary* no-action rejection
`(False, "No action defined for state None on symbol '$'")` — no
distinguishable structural/internal error is surfaced. -/
theorem lr_missing_goto_silently_continues :
    alookup (0, "S") ([] : List ((Nat × String) × Nat)) = none ∧
    LR.test_input lrG5 at5 [] "a" 10 =
      (false, some (LR.noActionMsg (.state none) "$")) :=
  ⟨rfl, by decide⟩

/-! Lemmas towards C8: merging only unions lookaheads, never drops an
item. -/

theorem getD_of_length_le {α : Type} (l : List α) (j : Nat) (d : α) (h : l.length ≤ j) :
    l.getD j d = d := by
  induction l generalizing j with
  | nil => simp [List.getD]
  | cons hd t ih =>
    cases j with
    | zero => simp at h
    | succ m =>
      simp only [List.getD] at *
      exact ih m (by simpa using h)

theorem addLA_lookup_self (m : List (LALR.Core × List String)) (c : LALR.Core) (la : String) :
    la ∈ (alookup c (LALR.addLA m c la)).getD [] := by
  induction m with
  | nil => simp [LALR.addLA, alookup, sinsert]
  | cons hd t ih =>
    obtain ⟨k, las⟩ := hd
    by_cases hk : k = c
    · subst hk
      simp only [LALR.addLA, if_pos rfl, alookup, if_pos rfl, Option.getD_some]
      exact mem_sinsert_self las la
    · simpa only [LALR.addLA, if_neg hk, alookup, if_neg hk] using ih

theorem addLA_lookup_pres (m : List (LALR.Core × List String)) (c c' : LALR.Core)
    (la la' : String) (h : la ∈ (alookup c m).getD []) :
    la ∈ (alookup c (LALR.addLA m c' la')).getD [] := by
  induction m with
  | nil => simp [alookup] at h
  | cons hd t ih =>
    obtain ⟨k, las⟩ := hd
    by_cases hk : k = c'
    · subst hk
      by_cases hkc : k = c
      · subst hkc
        simp only [alookup, if_pos rfl, Option.getD_some] at h
        simp only [LALR.addLA, if_pos rfl, alookup, if_pos rfl, Option.getD_some]
        exact mem_sinsert_of_mem las la' la h
      · simp only [alookup, if_neg hkc] at h
        simpa only [LALR.addLA, if_pos rfl, alookup, if_neg hkc] using h
    · by_cases hkc : k = c
      · subst hkc
        simp only [alookup, if_pos rfl, Option.getD_some] at h
        simpa only [LALR.addLA, if_neg hk, alookup, if_pos rfl, Option.getD_some] using h
      · simp only [alookup, if_neg hkc] at h
        simpa only [LALR.addLA, if_neg hk, alookup, if_neg hkc] using ih h

theorem ctlaFold_lookup_pres (items : List LALR.Item) :
    ∀ (m : List (LALR.Core × List String)) (c : LALR.Core) (la : String),
      la ∈ (alookup c m).getD [] → la ∈ (alookup c (LALR.ctlaFold m items)).getD [] := by
  induction items with
  | nil => exact fun m c la h => h
  | cons it t ih =>
    intro m c la h
    exact ih _ c la (addLA_lookup_pres m c (LALR.get_item_core it) la it.2.2.2 h)

theorem ctlaFold_lookup_self (items : List LALR.Item) :
    ∀ (m : List (LALR.Core × List String)) (it : LALR.Item), it ∈ items →
      it.2.2.2 ∈ (alookup (LALR.get_item_core it) (LALR.ctlaFold m items)).getD [] := by
  induction items with
  | nil => intro m it h; simp at h
  | cons hd t ih =>
    intro m it h
    rcases List.mem_cons.1 h with rfl | ht
    · exact ctlaFold_lookup_pres t _ _ _ (addLA_lookup_self m _ _)
    · exact ih _ it ht

theorem mem_rebuild (m : List (LALR.Core × List String)) (c : LALR.Core) (la : String)
    (h : la ∈ (alookup c m).getD []) : (c.1, c.2.1, c.2.2, la) ∈ LALR.rebuild m := by
  rcases hl : alookup c m with _ | las
  · rw [hl] at h
    simp at h
  · rw [hl] at h
    have hmem := alookup_mem m c las hl
    unfold LALR.rebuild
    exact List.mem_flatMap.2 ⟨(c, las), hmem, List.mem_map.2 ⟨la, h, rfl⟩⟩

theorem item_eta (it : LALR.Item) :
    ((LALR.get_item_core it).1, (LALR.get_item_core it).2.1,
      (LALR.get_item_core it).2.2, it.2.2.2) = it := rfl

theorem mem_merged_of_mem_state (existing state : List LALR.Item) (it : LALR.Item)
    (h : it ∈ state) :
    it ∈ LALR.rebuild (LALR.ctlaFold (LALR.ctlaFold [] existing) state) := by
  have h1 := ctlaFold_lookup_self state (LALR.ctlaFold [] existing) it h
  have h2 := mem_rebuild _ (LALR.get_item_core it) it.2.2.2 h1
  rwa [item_eta] at h2

theorem mem_merged_of_mem_existing (existing state : List LALR.Item) (it : LALR.Item)
    (h : it ∈ existing) :
    it ∈ LALR.rebuild (LALR.ctlaFold (LALR.ctlaFold [] existing) state) := by
  have h1 := ctlaFold_lookup_self existing [] it h
  have h2 := ctlaFold_lookup_pres state _ _ _ h1
  have h3 := mem_rebuild _ (LALR.get_item_core it) it.2.2.2 h2
  rwa [item_eta] at h3

theorem coreEqv_refl (c : List LALR.Core) : LALR.coreEqv c c = true := by
  unfold LALR.coreEqv
  simp

theorem coreLookup_append_some (m l' : List (List LALR.Core × Nat)) (c : List LALR.Core)
    (j : Nat) (h : LALR.coreLookup m c = some j) : LALR.coreLookup (m ++ l') c = some j := by
  induction m with
  | nil => simp [LALR.coreLookup] at h
  | cons hd t ih =>
    obtain ⟨k, v⟩ := hd
    by_cases hk : LALR.coreEqv k c = true
    · simp only [LALR.coreLookup, if_pos hk] at h ⊢
      exact h
    · simp only [LALR.coreLookup, if_neg hk] at h ⊢
      exact ih h

theorem coreLookup_append_self (m : List (List LALR.Core × Nat)) (c : List LALR.Core)
    (j : Nat) (h : LALR.coreLookup m c = none) :
    LALR.coreLookup (m ++ [(c, j)]) c = some j := by
  induction m with
  | nil => simp [LALR.coreLookup, coreEqv_refl]
  | cons hd t ih =>
    obtain ⟨k, v⟩ := hd
    by_cases hk : LALR.coreEqv k c = true
    · simp [LALR.coreLookup, if_pos hk] at h
    · simp only [LALR.coreLookup, if_neg hk] at h ⊢
      exact ih h

theorem coreLookup_mem (m : List (List LALR.Core × Nat)) (c : List LALR.Core) (j : Nat)
    (h : LALR.coreLookup m c = some j) : ∃ k, (k, j) ∈ m := by
  induction m with
  | nil => simp [LALR.coreLookup] at h
  | cons hd t ih =>
    obtain ⟨k, v⟩ := hd
    by_cases hk : LALR.coreEqv k c = true
    · simp only [LALR.coreLookup, if_pos hk, Option.some.injEq] at h
      exact ⟨k, by simp [h]⟩
    · simp only [LALR.coreLookup, if_neg hk] at h
      obtain ⟨k', hk'⟩ := ih h
      exact ⟨k', List.mem_cons_of_mem _ hk'⟩

theorem mergeStep_inv (acc : List (List LALR.Item) × List (List LALR.Core × Nat))
    (st : List LALR.Item) (h : MergeInv acc) : MergeInv (LALR.mergeStep acc st) := by
  obtain ⟨result, cts⟩ := acc
  unfold LALR.mergeStep
  rcases hc : LALR.coreLookup cts (LALR.get_state_core st) with _ | idx
  · simp only [hc]
    intro kv hkv
    rcases List.mem_append.1 hkv with hk | hk
    · have h2 : kv.2 < result.length := h kv hk
      simp only [List.length_append, List.length_cons, List.length_nil]
      omega
    · simp at hk
      simp [List.length_append, hk]
  · simp only [hc]
    intro kv hkv
    have h2 : kv.2 < result.length := h kv hkv
    simpa [List.length_set] using h2

theorem mergeStep_good_pres (acc : List (List LALR.Item) × List (List LALR.Core × Nat))
    (s st : List LALR.Item) (h : MergeGood acc s) : MergeGood (LALR.mergeStep acc st) s := by
  obtain ⟨result, cts⟩ := acc
  obtain ⟨j, hcl, hmem⟩ := h
  unfold LALR.mergeStep
  rcases hc : LALR.coreLookup cts (LALR.get_state_core st) with _ | idx
  · simp only [hc]
    refine ⟨j, coreLookup_append_some cts _ _ j hcl, ?_⟩
    intro it hit
    by_cases hlt : j < result.length
    · rw [getD_append_lt result [st] j [] hlt]
      exact hmem it hit
    · have h0 : result.getD j [] = [] := getD_of_length_le result j [] (by omega)
      rw [h0] at hmem
      exact absurd (hmem it hit) (List.not_mem_nil it)
  · simp only [hc]
    refine ⟨j, hcl, ?_⟩
    intro it hit
    by_cases hji : j = idx
    · subst hji
      by_cases hlt : j < result.length
      · rw [getD_set_self result j _ [] hlt]
        exact mem_merged_of_mem_existing (result.getD j []) st it (hmem it hit)
      · have h0 : result.getD j [] = [] := getD_of_length_le result j [] (by omega)
        rw [h0] at hmem
        exact absurd (hmem it hit) (List.not_mem_nil it)
    · rw [getD_set_ne result idx j _ [] (fun he => hji he.symm)]
      exact hmem it hit

theorem mergeStep_good_self (acc : List (List LALR.Item) × List (List LALR.Core × Nat))
    (st : List LALR.Item) (hinv : MergeInv acc) : MergeGood (LALR.mergeStep acc st) st := by
  obtain ⟨result, cts⟩ := acc
  unfold LALR.mergeStep
  rcases hc : LALR.coreLookup cts (LALR.get_state_core st) with _ | idx
  · simp only [hc]
    refine ⟨result.length, coreLookup_append_self cts _ result.length hc, ?_⟩
    intro it hit
    rw [getD_append_self result st []]
    exact hit
  · simp only [hc]
    have hidx : idx < result.length := by
      obtain ⟨k, hk⟩ := coreLookup_mem cts _ idx hc
      exact hinv (k, idx) hk
    refine ⟨idx, hc, ?_⟩
    intro it hit
    rw [getD_set_self result idx _ [] hidx]
    exact mem_merged_of_mem_state (result.getD idx []) st it hit

theorem mergeFold_pres (l : List (List LALR.Item)) :
    ∀ (acc : List (List LALR.Item) × List (List LALR.Core × Nat)) (s : List LALR.Item),
      MergeGood acc s → MergeGood (l.foldl LALR.mergeStep acc) s := by
  induction l with
  | nil => exact fun acc s h => h
  | cons hd t ih =>
    intro acc s h
    exact ih (LALR.mergeStep acc hd) s (mergeStep_good_pres acc s hd h)

theorem mergeFold_good (l : List (List LALR.Item)) :
    ∀ (acc : List (List LALR.Item) × List (List LALR.Core × Nat)), MergeInv acc →
      ∀ st ∈ l, MergeGood (l.foldl LALR.mergeStep acc) st := by
  induction l with
  | nil => intro acc _ st h; simp at h
  | cons hd t ih =>
    intro acc hinv st hst
    rcases List.mem_cons.1 hst with rfl | ht
    · exact mergeFold_pres t (LALR.mergeStep acc st) st (mergeStep_good_self acc st hinv)
    · exact ih (LALR.mergeStep acc hd) (mergeStep_inv acc hd hinv) st ht

/-- C8: every canonical LR(1) state's item set is a subset of the merged
LALR(1) state registered under its core: `core_to_state` maps the state's
core to an index `j`, and every item of the canonical state belongs to
the `j`-th merged state — merging only unions lookaheads, it never drops
an item. -/
theorem lr1_state_subset_of_merged (g : LALR.Grammar) (fuel : Nat)
    (ord : List String → List String) (st : List LALR.Item)
    (hst : st ∈ LALR.generate_lr1_items g fuel ord) (it : LALR.Item) (hit : it ∈ st) :
    ∃ j, LALR.coreLookup (LALR.generate_lalr1_items g fuel ord).core_to_state
        (LALR.get_state_core st) = some j ∧
      it ∈ (LALR.generate_lalr1_items g fuel ord).states.getD j [] := by
  have hgood := mergeFold_good (LALR.generate_lr1_items g fuel ord) ([], [])
    (by intro kv h; simp at h) st hst
  obtain ⟨j, hcl, hmem⟩ := hgood
  exact ⟨j, hcl, hmem it hit⟩

/-- Witness for C8 at the grammar `S -> S S | a`: the canonical state of
discovery index 4 shares its core with merged state 2, which contains its
item `(S, [a], 1, $)`. -/
theorem lr1_state_subset_of_merged_witness :
    c8State ∈ LALR.generate_lr1_items lalrG1 20 id ∧
    ("S", ["a"], 1, "$") ∈ c8State ∧
    ∃ j, LALR.coreLookup (LALR.generate_lalr1_items lalrG1 20 id).core_to_state
        (LALR.get_state_core c8State) = some j ∧
      ("S", ["a"], 1, "$") ∈ (LALR.generate_lalr1_items lalrG1 20 id).states.getD j [] :=
  ⟨by decide, by decide,
    lr1_state_subset_of_merged lalrG1 20 id c8State (by decide) ("S", ["a"], 1, "$") (by decide)⟩
